import Mathlib

/-!
Verification of the dependency-resolution core of PyHarmonyKG
(`src/flash/downstream/tasks.py`, with the name normalizer also present in
`src/flash/etl_flash.py`).

The embedding models:
  * Python string helpers (`strip`, `lower`, single-character `replace`) on
    ASCII data, as used by `normalize_name`;
  * the `packaging.version.Version` parse and comparison key (PEP 440), as
    used by `sort_versions`;
  * the `packaging.specifiers.SpecifierSet` object abstractly, as a record of
    the four operations the resolver calls on it (`SpecifierSet(s)`, `str`,
    truthiness, `contains(v, prereleases=True)`); each operation that can
    raise in Python returns an `Except`;
  * the Neo4j metadata port (`KGClient.get_versions` / `get_requires`)
    as a record of two pure functions (the raw query results; the client-side
    sort of `get_versions` is applied in `kgGetVersions`);
  * the recursive backtracking search `dfs` inside `resolve_plan`, with a fuel
    parameter standing for unbounded recursion (`none` = out of fuel; any
    `some` result is the Python result), and Python exceptions reified as
    `Except` errors;
  * the three task entry points.
-/

/-! ### Python string primitives (ASCII model) -/

/-- Python whitespace characters (the ASCII ones relevant to `str.strip`). -/
def isPySpace (c : Char) : Bool :=
  c = ' ' ∨ c = '\t' ∨ c = '\n' ∨ c = '\r' ∨ c = '\x0b' ∨ c = '\x0c'

/-- Python `str.strip()` on a character list: drop whitespace at both ends. -/
def pyStrip (cs : List Char) : List Char :=
  ((cs.dropWhile isPySpace).reverse.dropWhile isPySpace).reverse

/-- Python `str.strip()` at string level. -/
def pyStripStr (s : String) : String :=
  String.mk (pyStrip s.data)

/-- Python `str.lower()` (ASCII model: `Char.toLower`). -/
def pyLower (cs : List Char) : List Char :=
  cs.map Char.toLower

/-- `normalize_name` from `tasks.py`:
`name.strip().lower().replace("_", "-")`.  The single-character `replace` is a
character-wise map. -/
def normalize_name (s : String) : String :=
  String.mk ((pyLower (pyStrip s.data)).map (fun c => if c = '_' then '-' else c))

/-- `_SPACE_RE.sub("-", ...)` from `etl_flash.py`: every maximal run of
whitespace becomes a single hyphen.  The boolean state records whether the
previous character was part of a whitespace run. -/
def subSpaceAux : Bool → List Char → List Char
  | _, [] => []
  | prevSpace, c :: cs =>
    if isPySpace c then
      if prevSpace then subSpaceAux true cs else '-' :: subSpaceAux true cs
    else c :: subSpaceAux false cs

def subSpaceRuns (cs : List Char) : List Char :=
  subSpaceAux false cs

/-- `normalize_name` from `etl_flash.py`:
`_SPACE_RE.sub("-", name.strip().lower().replace("_", "-"))`. -/
def normalize_name_etl (s : String) : String :=
  String.mk (subSpaceRuns ((pyLower (pyStrip s.data)).map (fun c => if c = '_' then '-' else c)))

/-! ### `packaging.version.Version`: PEP 440 parse (as accepted by
`packaging`'s anchored, case-insensitive `VERSION_PATTERN`) and the
comparison key `Version._key`. -/

/-- Digits of a decimal numeral to a natural number. -/
def natOfDigits (ds : List Char) : Nat :=
  ds.foldl (fun a c => 10 * a + (c.toNat - '0'.toNat)) 0

/-- Read a maximal nonempty run of decimal digits (regex `[0-9]+`). -/
def readNat? (cs : List Char) : Option (Nat × List Char) :=
  let ds := cs.takeWhile Char.isDigit
  if ds = [] then none else some (natOfDigits ds, cs.drop ds.length)

/-- Consume one optional separator (regex `[-_\.]?`). -/
def dropSep : List Char → List Char
  | [] => []
  | c :: cs => if c = '-' ∨ c = '_' ∨ c = '.' then cs else c :: cs

/-- Match a literal word at the head of the input, returning the rest. -/
def matchWord (w : String) (cs : List Char) : Option (List Char) :=
  if w.data.isPrefixOf cs then some (cs.drop w.data.length) else none

/-- Try a list of words in the alternation order of the regex. -/
def matchFirstWord : List String → List Char → Option (String × List Char)
  | [], _ => none
  | w :: ws, cs =>
    match matchWord w cs with
    | some rest => some (w, rest)
    | none => matchFirstWord ws cs

/-- The pre-release alternatives, in `VERSION_PATTERN` order (longer words
before their own prefixes, as in the regex). -/
def preWords : List String := ["alpha", "a", "beta", "b", "preview", "pre", "c", "rc"]

/-- `_parse_letter_version` normalization of the pre-release phase, as a
number that is order-isomorphic to packaging's normalized strings
"a" < "b" < "rc". -/
def normPreLetter (w : String) : Nat :=
  if w = "alpha" ∨ w = "a" then 0
  else if w = "beta" ∨ w = "b" then 1
  else 2

/-- Parse `[-_\.]? WORD [-_\.]? ([0-9]+)?` with a missing number read as 0;
rewinds completely when no word of the alternation matches. -/
def readLetterNum (ws : List String) (cs : List Char) : Option (String × Nat × List Char) :=
  match matchFirstWord ws (dropSep cs) with
  | none => none
  | some (w, cs2) =>
    let cs3 := dropSep cs2
    match readNat? cs3 with
    | some (n, cs4) => some (w, n, cs4)
    | none => some (w, 0, cs3)

/-- Parse the post-release group: `(?:-(N)) | (?:[-_\.]?(post|rev|r)[-_\.]?(N)?)`,
first alternative first. -/
def readPost (cs : List Char) : Option (Nat × List Char) :=
  match cs with
  | '-' :: cs2 =>
    match readNat? cs2 with
    | some (n, cs3) => some (n, cs3)
    | none =>
      match readLetterNum ["post", "rev", "r"] cs with
      | some (_, n, cs4) => some (n, cs4)
      | none => none
  | _ =>
    match readLetterNum ["post", "rev", "r"] cs with
    | some (_, n, cs4) => some (n, cs4)
    | none => none

/-- Parse the optional epoch `([0-9]+!)?`, rewinding when the `!` is absent. -/
def readEpoch (cs : List Char) : Nat × List Char :=
  match readNat? cs with
  | some (n, '!' :: cs2) => (n, cs2)
  | _ => (0, cs)

/-- Parse `(\.[0-9]+)*` after the first release digit group. -/
def readMoreRelease : Nat → List Char → List Nat × List Char
  | 0, cs => ([], cs)
  | fuel + 1, cs =>
    match cs with
    | '.' :: cs2 =>
      match readNat? cs2 with
      | some (n, cs3) =>
        let (ns, cs4) := readMoreRelease fuel cs3
        (n :: ns, cs4)
      | none => ([], cs)
    | _ => ([], cs)

/-- Local version alphanumerics `[a-z0-9]` (input is already lower-cased). -/
def isLocAlnum (c : Char) : Bool :=
  c.isDigit ∨ ('a' ≤ c ∧ c ≤ 'z')

/-- A local-version segment: an integer segment when all characters are
digits (`part.isdigit()`), otherwise the raw (lower-cased) string. -/
def classifyLocSeg (seg : List Char) : Sum Nat String :=
  if seg.all Char.isDigit then Sum.inl (natOfDigits seg) else Sum.inr (String.mk seg)

/-- Parse `([-_\.][a-z0-9]+)*` greedily after the first local segment. -/
def readMoreLocal : Nat → List Char → List (Sum Nat String) × List Char
  | 0, cs => ([], cs)
  | fuel + 1, cs =>
    match cs with
    | c :: cs2 =>
      if c = '-' ∨ c = '_' ∨ c = '.' then
        let seg := cs2.takeWhile isLocAlnum
        if seg = [] then ([], cs)
        else
          let (segs, rest) := readMoreLocal fuel (cs2.drop seg.length)
          (classifyLocSeg seg :: segs, rest)
      else ([], cs)
    | [] => ([], cs)

/-- Parse the local version `[a-z0-9]+([-_\.][a-z0-9]+)*` (after the `+`). -/
def readLocal (cs : List Char) : Option (List (Sum Nat String) × List Char) :=
  let seg := cs.takeWhile isLocAlnum
  if seg = [] then none
  else
    let (segs, rest) := readMoreLocal cs.length (cs.drop seg.length)
    some (classifyLocSeg seg :: segs, rest)

/-- The parsed form of a PEP 440 version, after `packaging`'s normalization
(`Version.__init__`). -/
structure PyVersion where
  epoch : Nat
  release : List Nat
  pre : Option (Nat × Nat)
  post : Option Nat
  dev : Option Nat
  loc : Option (List (Sum Nat String))
deriving DecidableEq, Repr

/-- `packaging.version.Version(s)`: `none` models an `InvalidVersion` raise.
The whole input is whitespace-stripped and lower-cased up front (the regex is
anchored and case-insensitive, and all letter components are normalized to
lower case). -/
def parseVersion (s : String) : Option PyVersion :=
  let cs0 := pyLower (pyStrip s.data)
  let cs1 := match cs0 with
    | 'v' :: rest => rest
    | _ => cs0
  let (ep, cs2) := readEpoch cs1
  match readNat? cs2 with
  | none => none
  | some (r0, cs3) =>
    let (rs, cs4) := readMoreRelease cs3.length cs3
    let (pre, cs5) :=
      match readLetterNum preWords cs4 with
      | some (w, n, rest) => (some (normPreLetter w, n), rest)
      | none => (none, cs4)
    let (post, cs6) :=
      match readPost cs5 with
      | some (n, rest) => (some n, rest)
      | none => (none, cs5)
    let (dev, cs7) :=
      match readLetterNum ["dev"] cs6 with
      | some (_, n, rest) => (some n, rest)
      | none => (none, cs6)
    match cs7 with
    | [] => some ⟨ep, r0 :: rs, pre, post, dev, none⟩
    | '+' :: cs8 =>
      match readLocal cs8 with
      | some (segs, []) => some ⟨ep, r0 :: rs, pre, post, dev, some segs⟩
      | _ => none
    | _ => none

/-! ### `Version._cmpkey`, as nested lexicographic order types. -/

/-- Key of the pre-release slot: bottom is `NegativeInfinity` (a dev release
with neither pre nor post), top is `Infinity` (no pre-release otherwise). -/
abbrev PreK := WithTop (WithBot (Nat ×ₗ Nat))

/-- Key of one local segment: integer segments are `(n, "")`, string segments
are `(NegativeInfinity, s)`. -/
abbrev LocSegK := (WithBot Nat) ×ₗ String

/-- Key of the local slot: bottom is `NegativeInfinity` (no local part). -/
abbrev LocK := WithBot (List LocSegK)

/-- `Version._key`: (epoch, release without trailing zeros, pre, post, dev,
local), compared lexicographically. -/
abbrev PyKey := Nat ×ₗ (List Nat ×ₗ (PreK ×ₗ ((WithBot Nat) ×ₗ ((WithTop Nat) ×ₗ LocK))))

/-- Release tuple with trailing zeros removed. -/
def releaseKey (rs : List Nat) : List Nat :=
  (rs.reverse.dropWhile (· = 0)).reverse

def preKey (v : PyVersion) : PreK :=
  match v.pre with
  | some (p, n) => (some (some (toLex (p, n))) : PreK)
  | none =>
    match v.post, v.dev with
    | none, some _ => (some (⊥ : WithBot (Nat ×ₗ Nat)) : PreK)
    | _, _ => (⊤ : PreK)

def postKey : Option Nat → WithBot Nat
  | none => ⊥
  | some n => (n : WithBot Nat)

def devKey : Option Nat → WithTop Nat
  | none => ⊤
  | some n => (n : WithTop Nat)

def locSegKey : Sum Nat String → LocSegK
  | Sum.inl n => toLex ((n : WithBot Nat), "")
  | Sum.inr s => toLex ((⊥ : WithBot Nat), s)

def locKey : Option (List (Sum Nat String)) → LocK
  | none => ⊥
  | some segs => ((segs.map locSegKey : List LocSegK) : LocK)

def pyKey (v : PyVersion) : PyKey :=
  toLex (v.epoch, toLex (releaseKey v.release,
    toLex (preKey v, toLex (postKey v.post, toLex (devKey v.dev, locKey v.loc)))))

/-- The sort key of `sort_versions`: `(0, Version(v))` for well-formed
versions, `(1, v)` for malformed ones (Python tuple comparison is the
lexicographic sum order). -/
abbrev VKey := PyKey ⊕ₗ String

def versionSortKey (s : String) : VKey :=
  match parseVersion s with
  | some v => toLex (Sum.inl (pyKey v))
  | none => toLex (Sum.inr s)

/-- The strict comparison order underlying `sort_versions`. -/
def versionLt (a b : String) : Prop :=
  versionSortKey a < versionSortKey b

instance : DecidableRel versionLt := fun a b =>
  inferInstanceAs (Decidable (versionSortKey a < versionSortKey b))

/-- The descending (`reverse=True`) comparison used by `sort_versions`:
`a` may precede `b` when `a`'s key is not smaller. -/
def vGe (a b : String) : Prop :=
  versionSortKey b ≤ versionSortKey a

instance : DecidableRel vGe := fun a b =>
  inferInstanceAs (Decidable (versionSortKey b ≤ versionSortKey a))

instance : IsTotal String vGe :=
  ⟨fun a b => le_total (versionSortKey b) (versionSortKey a)⟩

instance : IsTrans String vGe :=
  ⟨fun _ _ _ h1 h2 => le_trans h2 h1⟩

/-- `sort_versions`: a stable descending sort by `versionSortKey`
(`sorted(versions, key=key, reverse=True)`). -/
def sort_versions (versions : List String) : List String :=
  List.insertionSort vGe versions

/-! ### Python exceptions reified as values. -/

/-- The exception kinds the resolver can let escape:
`packaging.version.InvalidVersion`, `packaging.specifiers.InvalidSpecifier`,
`packaging.requirements.InvalidRequirement`, and the `TypeError` from coercing
`None` to a version. -/
inductive PyExn where
  | invalidVersion
  | invalidSpecifier
  | invalidRequirement
  | typeError
deriving DecidableEq, Repr

/-! ### The `packaging` specifier object, abstractly.

The resolver treats `SpecifierSet` as a black-box external object; the four
operations it uses are collected in a record.  Operations that can raise in
Python (`SpecifierSet(s)` on a malformed specifier string, and
`contains(v, prereleases=True)`, whose first step coerces `v` with
`Version(v)` and raises `InvalidVersion` on a malformed version) return
`Except`. -/
structure SpecLang (Spec : Type) where
  /-- `SpecifierSet(s)`. -/
  parseSpec : String → Except PyExn Spec
  /-- `str(spec)`. -/
  specStr : Spec → String
  /-- truthiness of the set (`not spec` is true exactly when it is empty). -/
  specIsEmpty : Spec → Bool
  /-- `spec.contains(v, prereleases=True)`. -/
  contains : Spec → String → Except PyExn Bool
  /-- `Requirement(line)`, reduced to the two pieces `parse_requirements`
  reads: `r.name` (raw) and `str(r.specifier) if r.specifier else ""`. -/
  parseReq : String → Except PyExn (String × String)

/-! ### The metadata port (`KGClient`). -/

/-- The raw query results of the two Cypher queries.  Retry/timeout behavior
is I/O and outside the model; a hard query failure is not represented (the
claims about the search treat the port as answering). -/
structure Port where
  /-- rows of `get_versions` before the client-side sort. -/
  getVersions : String → List String
  /-- rows of `get_requires`: `(dep_name, spec or "", marker or "")`. -/
  getRequires : String → String → List (String × String × String)

/-- `KGClient.get_versions`: the rows sorted by `sort_versions`. -/
def kgGetVersions (port : Port) (name : String) : List String :=
  sort_versions (port.getVersions name)

/-! ### Insertion-ordered string dictionaries (Python `dict`). -/

/-- Update in place when the key exists (keeping its position), else append:
Python `d[k] = v`. -/
def dictInsert {α : Type} : List (String × α) → String → α → List (String × α)
  | [], k, v => [(k, v)]
  | (k0, v0) :: rest, k, v =>
    if k0 = k then (k, v) :: rest else (k0, v0) :: dictInsert rest k v

/-- Python `d.get(k)` / `k in d`. -/
def dictGet {α : Type} : List (String × α) → String → Option α
  | [], _ => none
  | (k0, v0) :: rest, k => if k0 = k then some v0 else dictGet rest k

/-- Python `d.setdefault(k, v)`. -/
def dictSetdefault {α : Type} (d : List (String × α)) (k : String) (v : α) :
    List (String × α) :=
  if (dictGet d k).isSome then d else d ++ [(k, v)]

/-! ### Data structures of the resolver. -/

/-- `PackageSelection(name, version, source)`. -/
structure PackageSelection where
  name : String
  version : String
  source : String
deriving DecidableEq, Repr

/-- The resolver plan: an insertion-ordered dict name → selection. -/
abbrev Plan := List (String × PackageSelection)

/-- `ResolutionResult(ok, plan, conflicts)`. -/
structure ResolutionResult where
  ok : Bool
  plan : Plan
  conflicts : List String
deriving DecidableEq, Repr

/-- A queue entry `(name, SpecifierSet, tag)`. -/
abbrev Tgt (Spec : Type) := String × Spec × String

/-- What one `dfs` call returns in Python: `(ok, plan, conflicts)`. -/
abbrev DfsRes := Bool × Plan × List String

/-! ### Constants and conflict messages (`tasks.py` module constants and the
f-strings of `dfs`). -/

def MAX_QUEUE : Nat := 2000
def MAX_PACKAGES : Nat := 800

def msgMaxPackages : String := "处理的包数超过上限 " ++ toString MAX_PACKAGES
def msgMaxQueue : String := "队列超过上限 " ++ toString MAX_QUEUE ++ "，中止"
def noVersionsMsg (name : String) : String := name ++ ": 在图谱中无可用版本"
def noMatchMsg (name specStr : String) : String :=
  name ++ ": 无法找到满足 " ++ specStr ++ " 的版本"
def allFailedMsg (name : String) : String := name ++ ": 所有候选版本依赖冲突"

/-! ### The pieces of one `dfs` expansion step. -/

/-- The emptiness test of line 208: `not spec or str(spec) == ""`. -/
def specEmptyTest {Spec : Type} (L : SpecLang Spec) (spec : Spec) : Bool :=
  L.specIsEmpty spec || (L.specStr spec == "")

/-- Left-to-right filter by a fallible predicate: the list comprehension
`[v for v in vs if spec.contains(v, prereleases=True)]`, where the first
raise aborts. -/
def exceptFilter {α : Type} (f : α → Except PyExn Bool) : List α → Except PyExn (List α)
  | [] => .ok []
  | a :: rest =>
    match f a with
    | .error e => .error e
    | .ok b =>
      match exceptFilter f rest with
      | .error e => .error e
      | .ok tl => .ok (if b then a :: tl else tl)

/-- Lines 207-212: the candidate list before the emptiness check and the
front-move.  Empty specifier: all versions, newest first.  Otherwise: the
matching versions, oldest first. -/
def buildBaseCands {Spec : Type} (L : SpecLang Spec) (spec : Spec)
    (versions : List String) : Except PyExn (List String) :=
  if specEmptyTest L spec then .ok (sort_versions versions)
  else exceptFilter (fun v => L.contains spec v) (sort_versions versions).reverse

/-- Lines 216-218: when the incoming plan has the name at a version that
still satisfies the specifier, put that version first. -/
def frontMove {Spec : Type} (L : SpecLang Spec) (spec : Spec) (plan : Plan)
    (name : String) (cands : List String) : Except PyExn (List String) :=
  match dictGet plan name with
  | none => .ok cands
  | some sel =>
    match L.contains spec sel.version with
    | .error e => .error e
    | .ok b => .ok (if b then sel.version :: cands.filter (fun v => v ≠ sel.version) else cands)

/-- Lines 223-228: provenance of a (re-)assignment, relative to the incoming
plan. -/
def sourceFor (plan : Plan) (name cand : String) : String :=
  match dictGet plan name with
  | none => "new"
  | some sel => if sel.source = "existing" ∧ sel.version = cand then "existing" else "upgrade"

/-- Python substring test `pat in s` on character lists. -/
def hasInfix (pat : List Char) : List Char → Bool
  | [] => pat.isPrefixOf []
  | c :: cs => pat.isPrefixOf (c :: cs) || hasInfix pat cs

/-- Lines 230-234: dependency edges of `(name, cand)` turned into queue
entries, skipping extras-scoped markers; `SpecifierSet(dep_spec or "")` can
raise. -/
def depsToTargets {Spec : Type} (L : SpecLang Spec) (parent : String) :
    List (String × String × String) → Except PyExn (List (Tgt Spec))
  | [] => .ok []
  | (depName, depSpec, marker) :: rest =>
    if marker ≠ "" ∧ hasInfix "extra ==".data marker.data then
      depsToTargets L parent rest
    else
      match L.parseSpec depSpec with
      | .error e => .error e
      | .ok sp =>
        match depsToTargets L parent rest with
        | .error e => .error e
        | .ok tl => .ok ((normalize_name depName, sp, "dep-of-" ++ parent) :: tl)

/-! ### The search. -/

/-- Lines 220-238: the `for cand in cands` loop of one expansion step.
`recur` is the recursive `dfs` call; the first success wins, failures inside
the loop are discarded, exceptions and fuel exhaustion propagate, and when
every candidate failed the step fails with the fixed message and the
*incoming* plan. -/
def tryCands {Spec : Type} (L : SpecLang Spec) (port : Port)
    (recur : List (Tgt Spec) → Plan → List (String × String) → Option (Except PyExn DfsRes))
    (name : String) (rest : List (Tgt Spec)) (plan : Plan)
    (visited : List (String × String)) : List String → Option (Except PyExn DfsRes)
  | [] => some (.ok (false, plan, [allFailedMsg name]))
  | cand :: cs =>
    let newPlan := dictInsert plan name ⟨name, cand, sourceFor plan name cand⟩
    match depsToTargets L name (port.getRequires name cand) with
    | .error e => some (.error e)
    | .ok extra =>
      match recur (rest ++ extra) newPlan visited with
      | none => none
      | some (.error e) => some (.error e)
      | some (.ok (true, p2, conf)) => some (.ok (true, p2, conf))
      | some (.ok (false, _, _)) => tryCands L port recur name rest plan visited cs

/-- Lines 188-238: the recursive backtracking search.  The `Nat` fuel stands
for the unbounded Python recursion: `none` means the modelled computation was
cut off; any `some` answer is the Python answer. -/
def dfs {Spec : Type} (L : SpecLang Spec) (port : Port) :
    Nat → List (Tgt Spec) → Plan → List (String × String) → Option (Except PyExn DfsRes)
  | 0, _, _, _ => none
  | fuel + 1, queue, plan, visited =>
    if plan.length > MAX_PACKAGES then some (.ok (false, plan, [msgMaxPackages]))
    else
      match queue with
      | [] => some (.ok (true, plan, []))
      | (name, spec, _tag) :: rest =>
        if rest.length + 1 > MAX_QUEUE then some (.ok (false, plan, [msgMaxQueue]))
        else if (name, L.specStr spec) ∈ visited then dfs L port fuel rest plan visited
        else
          let visited2 := (name, L.specStr spec) :: visited
          let versions := kgGetVersions port name
          if versions = [] then some (.ok (false, plan, [noVersionsMsg name]))
          else
            match buildBaseCands L spec versions with
            | .error e => some (.error e)
            | .ok cands0 =>
              if cands0 = [] then
                some (.ok (false, plan, [noMatchMsg name (L.specStr spec)]))
              else
                match frontMove L spec plan name cands0 with
                | .error e => some (.error e)
                | .ok cands => tryCands L port (dfs L port fuel) name rest plan visited2 cands

/-- Lines 178-181: the initial plan built from the environment snapshot. -/
def initPlan (current : List (String × String)) : Plan :=
  current.foldl
    (fun acc kv =>
      dictInsert acc (normalize_name kv.1) ⟨normalize_name kv.1, kv.2, "existing"⟩)
    []

/-- Lines 184-186: the initial queue (`SpecifierSet(spec_str or "")` can
raise; for strings `spec_str or ""` is the identity). -/
def buildQueue {Spec : Type} (L : SpecLang Spec) :
    List (String × String × String) → Except PyExn (List (Tgt Spec))
  | [] => .ok []
  | (name, specStr, tag) :: rest =>
    match L.parseSpec specStr with
    | .error e => .error e
    | .ok sp =>
      match buildQueue L rest with
      | .error e => .error e
      | .ok tl => .ok ((normalize_name name, sp, tag) :: tl)

/-- `resolve_plan(kg, current, targets)`. -/
def resolve_plan {Spec : Type} (L : SpecLang Spec) (port : Port) (fuel : Nat)
    (current : List (String × String)) (targets : List (String × String × String)) :
    Option (Except PyExn ResolutionResult) :=
  match buildQueue L targets with
  | .error e => some (.error e)
  | .ok queue =>
    match dfs L port fuel queue (initPlan current) [] with
    | none => none
    | some (.error e) => some (.error e)
    | some (.ok (ok, p, confs)) => some (.ok ⟨ok, p, confs⟩)

/-! ### `parse_requirements` and the three task entry points. -/

/-- Lines 151-162, as a left fold: strip each line, skip blank and `#` lines,
parse the rest, and write `result[name] = spec` (later lines overwrite). -/
def parseRequirementsAux {Spec : Type} (L : SpecLang Spec)
    (acc : List (String × String)) : List String → Except PyExn (List (String × String))
  | [] => .ok acc
  | line :: rest =>
    let t := pyStripStr line
    if t = "" then parseRequirementsAux L acc rest
    else if t.data.head? = some '#' then parseRequirementsAux L acc rest
    else
      match L.parseReq t with
      | .error e => .error e
      | .ok (name0, spec0) =>
        parseRequirementsAux L (dictInsert acc (normalize_name name0) spec0) rest

def parse_requirements {Spec : Type} (L : SpecLang Spec) (reqLines : List String) :
    Except PyExn (List (String × String)) :=
  parseRequirementsAux L [] reqLines

/-- Lines 250-255 of `task1_check_single`: walk `req_map.items()`, failing
fast when an installed version violates a specifier, and `setdefault` each
requirement name to `None`.  `Sum.inl` is the early `return` of line 254. -/
def task1Merge {Spec : Type} (L : SpecLang Spec)
    (merged : List (String × Option String)) :
    List (String × String) →
      Except PyExn (Sum ResolutionResult (List (String × Option String)))
  | [] => .ok (.inr merged)
  | (k, s) :: rest =>
    if s ≠ "" then
      match dictGet merged k with
      | some (some v) =>
        match L.parseSpec s with
        | .error e => .error e
        | .ok sp =>
          match L.contains sp v with
          | .error e => .error e
          | .ok b =>
            if b then task1Merge L (dictSetdefault merged k none) rest
            else .ok (.inl ⟨false, [], [k ++ ": 已安装 " ++ v ++ " 不满足 " ++ s]⟩)
      | some none => .error .typeError
      | none => task1Merge L (dictSetdefault merged k none) rest
    else task1Merge L (dictSetdefault merged k none) rest

/-- Line 257's argument: `{k: v for k, v in merged.items() if v}` (both
`None` and `""` are falsy). -/
def task1Filter (merged : List (String × Option String)) : List (String × String) :=
  merged.filterMap (fun kv =>
    match kv.2 with
    | some s => if s ≠ "" then some (kv.1, s) else none
    | none => none)

/-- `task1_check_single(kg, current, req_lines, new_pkg, spec)`. -/
def task1_check_single {Spec : Type} (L : SpecLang Spec) (port : Port) (fuel : Nat)
    (current : List (String × String)) (reqLines : List String)
    (newPkg spec : String) : Option (Except PyExn ResolutionResult) :=
  match parse_requirements L reqLines with
  | .error e => some (.error e)
  | .ok reqMap =>
    match task1Merge L (current.map (fun kv => (kv.1, some kv.2))) reqMap with
    | .error e => some (.error e)
    | .ok (.inl res) => some (.ok res)
    | .ok (.inr merged) =>
      resolve_plan L port fuel (task1Filter merged) [(newPkg, spec, "target")]

/-- Lines 265-268 / 276-278: requirement entries for already-installed
packages become extra `"req"` targets. -/
def reqTargets (merged : List (String × String)) :
    List (String × String) → List (String × String × String)
  | [] => []
  | (k, s) :: rest =>
    if (dictGet merged k).isSome ∧ s ≠ "" then (k, s, "req") :: reqTargets merged rest
    else reqTargets merged rest

/-- `task2_install_single_with_upgrade(kg, current, req_lines, new_pkg, min_spec)`. -/
def task2_install_single_with_upgrade {Spec : Type} (L : SpecLang Spec) (port : Port)
    (fuel : Nat) (current : List (String × String)) (reqLines : List String)
    (newPkg minSpec : String) : Option (Except PyExn ResolutionResult) :=
  match parse_requirements L reqLines with
  | .error e => some (.error e)
  | .ok reqMap =>
    resolve_plan L port fuel current
      ((newPkg, minSpec, "target") :: reqTargets current reqMap)

/-- `task3_install_multi_with_upgrade(kg, current, req_lines, new_pkgs)`. -/
def task3_install_multi_with_upgrade {Spec : Type} (L : SpecLang Spec) (port : Port)
    (fuel : Nat) (current : List (String × String)) (reqLines : List String)
    (newPkgs : List (String × String)) : Option (Except PyExn ResolutionResult) :=
  match parse_requirements L reqLines with
  | .error e => some (.error e)
  | .ok reqMap =>
    resolve_plan L port fuel current
      (newPkgs.map (fun p => (p.1, p.2, "target")) ++ reqTargets current reqMap)

/-! ### Concrete instances used by counterexamples and witnesses.

`exLang` instantiates the abstract specifier record the way `packaging`
behaves on the handful of specifier strings and version strings the concrete
runs below touch (`contains` coerces the version first, so any malformed
version string raises `InvalidVersion` whatever the specifier is). -/

def exContains : String → String → Except PyExn Bool := fun s v =>
  if v = "bad" then .error .invalidVersion
  else if s = "" then .ok true
  else if s = "==1" then .ok (v == "1")
  else if s = "==2" then .ok (v == "2")
  else if s = ">=1" then .ok (v == "1" || v == "2" || v == "1.0" || v == "2.0")
  else if s = ">=2" then .ok (v == "2" || v == "2.0")
  else .error .invalidSpecifier

def exLang : SpecLang String where
  parseSpec := fun s => .ok s
  specStr := fun s => s
  specIsEmpty := fun s => s == ""
  contains := exContains
  parseReq := fun t =>
    if t = "a==1" then .ok ("a", "==1")
    else if t = "a==2" then .ok ("a", "==2")
    else if t = "b==9" then .ok ("b", "==9")
    else .error .invalidRequirement

/-- A registry knowing versions 1 and 2 of package `a`, with no dependencies. -/
def exPortA : Port where
  getVersions := fun n => if n = "a" then ["1", "2"] else []
  getRequires := fun _ _ => []

/-- A registry where `a@1` requires `numpy>=2`. -/
def exPortB : Port where
  getVersions := fun n =>
    if n = "a" then ["1"] else if n = "numpy" then ["1.0", "2.0"] else []
  getRequires := fun n v =>
    if n = "a" ∧ v = "1" then [("numpy", ">=2", "")] else []

/-- A registry whose version list for `p` contains a malformed version. -/
def exPortC : Port where
  getVersions := fun n => if n = "p" then ["1.0", "bad"] else []
  getRequires := fun _ _ => []

/-! ### C7 — `normalize_name`. -/

/-- C7, counterexample.  The claim says every run of underscores, dots or
hyphens collapses to a single hyphen, so "a__b" would normalize to "a-b".
Both implementations map each underscore separately: "a__b" becomes "a--b",
and a dot run "a..b" is left alone entirely. -/
theorem C7_counterexample :
    normalize_name "a__b" = "a--b" ∧ normalize_name_etl "a__b" = "a--b" ∧
      normalize_name "a..b" = "a..b" ∧ ("a--b" : String) ≠ "a-b" := by
  refine ⟨rfl, rfl, rfl, ?_⟩
  decide

/-- Helper: `subSpaceAux` introduces only hyphens and keeps characters of the
input, so it never produces an underscore from an underscore-free input. -/
theorem subSpaceAux_no_underscore :
    ∀ (l : List Char), '_' ∉ l → ∀ b, '_' ∉ subSpaceAux b l := by
  intro l
  induction l with
  | nil => intro _ b h; cases h
  | cons c cs ih =>
    intro h b
    have hc : c ≠ '_' := fun hc => h (hc ▸ List.mem_cons_self c cs)
    have hcs : '_' ∉ cs := fun hm => h (List.mem_cons_of_mem c hm)
    show '_' ∉ (if isPySpace c then
        if b then subSpaceAux true cs else '-' :: subSpaceAux true cs
      else c :: subSpaceAux false cs)
    split
    · split
      · exact ih hcs true
      · intro hm
        rcases List.mem_cons.1 hm with h1 | h2
        · exact absurd h1 (by decide)
        · exact ih hcs true h2
    · intro hm
      rcases List.mem_cons.1 hm with h1 | h2
      · exact hc h1.symm
      · exact ih hcs false h2

/-- C7, amended.  `normalize_name` lower-cases (ASCII), trims surrounding
whitespace, and replaces each single underscore with a hyphen; it keeps the
character count of the stripped input (so no run is ever collapsed), leaves
dots in place, and its output never contains an underscore.  The
`etl_flash.py` variant additionally turns each internal whitespace run into
one hyphen, and its output never contains an underscore either. -/
theorem C7_amended (s : String) :
    (normalize_name s).data =
      (pyStrip s.data).map (fun c => if c.toLower = '_' then '-' else c.toLower) ∧
    (normalize_name s).data.length = (pyStrip s.data).length ∧
    '_' ∉ (normalize_name s).data ∧
    ('.' ∈ pyStrip s.data → '.' ∈ (normalize_name s).data) ∧
    '_' ∉ (normalize_name_etl s).data := by
  have hmapeq : (normalize_name s).data =
      (pyStrip s.data).map (fun c => if c.toLower = '_' then '-' else c.toLower) := by
    show ((pyLower (pyStrip s.data)).map _) = _
    rw [pyLower, List.map_map]
    rfl
  have hnund : ∀ (l : List Char),
      '_' ∉ l.map (fun c => if c.toLower = '_' then '-' else c.toLower) := by
    intro l h
    obtain ⟨c, _, hc⟩ := List.mem_map.1 h
    by_cases h2 : c.toLower = '_'
    · rw [if_pos h2] at hc
      exact absurd hc (by decide)
    · rw [if_neg h2] at hc
      exact h2 hc
  refine ⟨hmapeq, by rw [hmapeq, List.length_map], by rw [hmapeq]; exact hnund _, ?_, ?_⟩
  · intro hdot
    rw [hmapeq]
    refine List.mem_map.2 ⟨'.', hdot, by decide⟩
  · show '_' ∉ subSpaceAux false ((pyLower (pyStrip s.data)).map _)
    rw [pyLower, List.map_map]
    exact subSpaceAux_no_underscore _ (hnund (pyStrip s.data)) false

/-! ### C6 — the comparison order of `sort_versions`. -/

/-- C6, confirmed.  The comparison order underlying `sort_versions` (strictly
smaller sort key; "equal" in the sense of §4.1's `compare`, i.e. equal sort
keys) is transitive and trichotomous with mutually exclusive cases, every
well-formed version is ordered before (i.e. the malformed one orders after)
any malformed version, and between two malformed versions the order is the
lexicographic (code-point) comparison of the raw strings. -/
theorem C6_version_order (a b c : String) :
    (versionLt a b → versionLt b c → versionLt a c) ∧
    (versionLt a b ∨ versionSortKey a = versionSortKey b ∨ versionLt b a) ∧
    ¬(versionLt a b ∧ versionLt b a) ∧
    ¬(versionLt a b ∧ versionSortKey a = versionSortKey b) ∧
    ¬(versionLt b a ∧ versionSortKey a = versionSortKey b) ∧
    ((parseVersion a).isSome → parseVersion b = none → versionLt a b) ∧
    (parseVersion a = none → parseVersion b = none → (versionLt a b ↔ a < b)) := by
  refine ⟨fun h1 h2 => lt_trans h1 h2, lt_trichotomy _ _, ?_, ?_, ?_, ?_, ?_⟩
  · exact fun ⟨h1, h2⟩ => lt_asymm h1 h2
  · exact fun ⟨h1, h2⟩ => absurd h2 (ne_of_lt h1)
  · exact fun ⟨h1, h2⟩ => absurd h2.symm (ne_of_lt h1)
  · intro ha hb
    obtain ⟨v, hv⟩ := Option.isSome_iff_exists.1 ha
    show versionSortKey a < versionSortKey b
    rw [versionSortKey, versionSortKey, hv, hb]
    exact Sum.Lex.inl_lt_inr _ _
  · intro ha hb
    show versionSortKey a < versionSortKey b ↔ a < b
    rw [versionSortKey, versionSortKey, ha, hb]
    exact Sum.Lex.inr_lt_inr_iff

/-- C6, witness: the theorem applied at concrete strings, discharging its
parse-status hypotheses ("1.0" parses, "zzz" and "zzy" do not). -/
theorem C6_witness :
    versionLt "1.0" "zzz" ∧ (versionLt "zzy" "zzz" ↔ ("zzy" : String) < "zzz") := by
  refine ⟨(C6_version_order "1.0" "zzz" "1.0").2.2.2.2.2.1 (by decide) (by decide), ?_⟩
  exact (C6_version_order "zzy" "zzz" "zzy").2.2.2.2.2.2 (by decide) (by decide)

/-! ### Helper lemmas on sorting and the fallible filter. -/

instance exceptDecEq {ε α : Type} [DecidableEq ε] [DecidableEq α] :
    DecidableEq (Except ε α)
  | .ok a, .ok b =>
    if h : a = b then .isTrue (by rw [h]) else .isFalse (by intro hh; cases hh; exact h rfl)
  | .error a, .error b =>
    if h : a = b then .isTrue (by rw [h]) else .isFalse (by intro hh; cases hh; exact h rfl)
  | .ok _, .error _ => .isFalse (by intro h; cases h)
  | .error _, .ok _ => .isFalse (by intro h; cases h)

/-- The ascending companion of `vGe`. -/
def vLe (a b : String) : Prop :=
  versionSortKey a ≤ versionSortKey b

instance : DecidableRel vLe := fun a b =>
  inferInstanceAs (Decidable (versionSortKey a ≤ versionSortKey b))

theorem sort_versions_perm (l : List String) : (sort_versions l).Perm l :=
  List.perm_insertionSort vGe l

theorem sort_versions_sorted (l : List String) : List.Sorted vGe (sort_versions l) :=
  List.sorted_insertionSort vGe l

theorem sort_versions_reverse_sorted (l : List String) :
    List.Sorted vLe (sort_versions l).reverse := by
  have h := sort_versions_sorted l
  exact List.pairwise_reverse.2 (h.imp (fun hab => hab))

theorem exceptFilter_ok {α : Type} [DecidableEq α] (f : α → Except PyExn Bool) :
    ∀ (l : List α) (r : List α), exceptFilter f l = .ok r →
      r = l.filter (fun a => decide (f a = .ok true)) ∧ ∀ a ∈ l, ∃ b, f a = .ok b := by
  intro l
  induction l with
  | nil =>
    intro r h
    refine ⟨?_, by intro a ha; cases ha⟩
    simpa [exceptFilter] using h.symm
  | cons a rest ih =>
    intro r h
    rw [exceptFilter] at h
    cases hfa : f a with
    | error e => rw [hfa] at h; cases h
    | ok b =>
      rw [hfa] at h
      cases hrest : exceptFilter f rest with
      | error e =>
        rw [hrest] at h
        cases h
      | ok tl =>
        rw [hrest] at h
        obtain ⟨htl, hall⟩ := ih tl hrest
        have hr : r = if b then a :: tl else tl := by
          cases h
          rfl
        refine ⟨?_, ?_⟩
        · cases b with
          | true => simp [hr, List.filter, hfa, htl]
          | false => simp [hr, List.filter, hfa, htl]
        · intro x hx
          rcases List.mem_cons.1 hx with h1 | h2
          · exact ⟨b, h1 ▸ hfa⟩
          · exact hall x h2

/-! ### C5 — candidate construction and ordering. -/

/-- C5, confirmed.  In an expansion step of `dfs`: with an empty specifier the
base candidate list is all known versions in descending (newest-first) key
order; with a non-empty specifier it is exactly the versions the specifier
accepts, in ascending (oldest-first) key order; and when the incoming plan
already holds the name at a version the specifier still accepts, that version
is placed first, ahead of all other candidates. -/
theorem C5_candidate_order {Spec : Type} (L : SpecLang Spec) (spec : Spec)
    (versions : List String) (plan : Plan) (name : String)
    (cands0 cands : List String)
    (h0 : buildBaseCands L spec versions = .ok cands0)
    (h1 : frontMove L spec plan name cands0 = .ok cands) :
    (specEmptyTest L spec = true →
        cands0.Perm versions ∧ List.Sorted vGe cands0) ∧
    (specEmptyTest L spec = false →
        cands0.Perm (versions.filter (fun v => decide (L.contains spec v = .ok true))) ∧
        List.Sorted vLe cands0 ∧
        (∀ v, v ∈ cands0 ↔ v ∈ versions ∧ L.contains spec v = .ok true)) ∧
    (dictGet plan name = none → cands = cands0) ∧
    (∀ sel, dictGet plan name = some sel →
        (L.contains spec sel.version = .ok true →
            cands = sel.version :: cands0.filter (fun v => v ≠ sel.version)) ∧
        (L.contains spec sel.version = .ok false → cands = cands0)) := by
  refine ⟨?_, ?_, ?_, ?_⟩
  · intro hempty
    rw [buildBaseCands, hempty, if_pos rfl] at h0
    cases h0
    exact ⟨sort_versions_perm versions, sort_versions_sorted versions⟩
  · intro hne
    rw [buildBaseCands, hne] at h0
    simp only [Bool.false_eq_true, if_false] at h0
    obtain ⟨heq, _⟩ := exceptFilter_ok _ _ _ h0
    have hperm : ((sort_versions versions).reverse).Perm versions :=
      ((sort_versions versions).reverse_perm).trans (sort_versions_perm versions)
    refine ⟨heq ▸ hperm.filter _, heq ▸ (sort_versions_reverse_sorted versions).filter _, ?_⟩
    intro v
    rw [heq, List.mem_filter]
    constructor
    · rintro ⟨hv, hd⟩
      exact ⟨hperm.mem_iff.1 hv, of_decide_eq_true hd⟩
    · rintro ⟨hv, hd⟩
      exact ⟨hperm.mem_iff.2 hv, decide_eq_true hd⟩
  · intro hnone
    rw [frontMove, hnone] at h1
    cases h1
    rfl
  · intro sel hsel
    simp only [frontMove, hsel] at h1
    refine ⟨?_, ?_⟩
    · intro htrue
      rw [htrue] at h1
      simp only [if_pos rfl] at h1
      exact (Except.ok.inj h1).symm
    · intro hfalse
      rw [hfalse] at h1
      simp only [Bool.false_eq_true, if_false] at h1
      exact (Except.ok.inj h1).symm

/-- C5, witness: the theorem applied at the concrete language `exLang`,
specifier ">=1", version rows ["2", "1"] and an incoming plan holding
`a@1`; the hypotheses evaluate by `rfl`. -/
theorem C5_witness :
    List.Sorted vLe ["1", "2"] ∧
      (["1", "2"] : List String).Perm
        ((["2", "1"] : List String).filter
          (fun v => decide (exLang.contains ">=1" v = .ok true))) ∧
      (["1", "2"] : List String) =
        "1" :: (["1", "2"] : List String).filter (fun v => v ≠ "1") := by
  have h := C5_candidate_order exLang ">=1" ["2", "1"]
    [("a", ⟨"a", "1", "existing"⟩)] "a" ["1", "2"] ["1", "2"] rfl rfl
  have h2 := (h.2.1) rfl
  exact ⟨h2.2.1, h2.1, ((h.2.2.2) _ rfl).1 rfl⟩

/-! ### C1 — plan entries versus processed targets. -/

/-- C1, counterexample.  With no environment, registry `exPortA`
(`a` has versions 1 and 2, no dependencies) and the two targets
`(a, "==1")` then `(a, ">=2")`, `resolve_plan` succeeds with `a@2`, although
the processed target `(a, "==1")` is not satisfied by version 2: the second
target reassigned `a` without rechecking the first target's specifier. -/
theorem C1_counterexample :
    resolve_plan exLang exPortA 10 [] [("a", "==1", "t1"), ("a", ">=2", "t2")] =
      some (.ok ⟨true, [("a", ⟨"a", "2", "upgrade"⟩)], []⟩) ∧
    exLang.contains "==1" "2" = .ok false := ⟨rfl, rfl⟩

/-- C1, amended.  A candidate version chosen while expanding a target
satisfies that target's specifier *at the moment of assignment* whenever the
specifier is non-empty (an empty specifier constrains nothing): every entry
of the candidate list handed to the assignment loop passes
`contains`.  The final plan, however, only reflects each name's last
assignment, so a later target for the same name may leave an earlier
target's specifier unsatisfied (see the counterexample). -/
theorem C1_amended {Spec : Type} (L : SpecLang Spec) (spec : Spec)
    (versions : List String) (plan : Plan) (name : String)
    (cands0 cands : List String)
    (h0 : buildBaseCands L spec versions = .ok cands0)
    (h1 : frontMove L spec plan name cands0 = .ok cands)
    (hne : specEmptyTest L spec = false) :
    ∀ v ∈ cands, L.contains spec v = .ok true := by
  have hmem0 : ∀ v ∈ cands0, L.contains spec v = .ok true := by
    rw [buildBaseCands, hne] at h0
    simp only [Bool.false_eq_true, if_false] at h0
    obtain ⟨heq, _⟩ := exceptFilter_ok _ _ _ h0
    intro v hv
    rw [heq] at hv
    exact of_decide_eq_true (List.mem_filter.1 hv).2
  cases hsel : dictGet plan name with
  | none =>
    simp only [frontMove, hsel] at h1
    exact (Except.ok.inj h1) ▸ hmem0
  | some sel =>
    simp only [frontMove, hsel] at h1
    cases hc : L.contains spec sel.version with
    | error e => rw [hc] at h1; cases h1
    | ok b =>
      rw [hc] at h1
      cases b with
      | true =>
        simp only [if_pos rfl] at h1
        intro v hv
        rw [← Except.ok.inj h1] at hv
        rcases List.mem_cons.1 hv with h2 | h2
        · exact h2 ▸ hc
        · exact hmem0 v (List.mem_filter.1 h2).1
      | false =>
        simp only [Bool.false_eq_true, if_false] at h1
        exact (Except.ok.inj h1) ▸ hmem0

/-- C1, witness: the amended theorem applied at `exLang`, specifier ">=2",
versions ["1", "2"], with `a@1` in the incoming plan; all hypotheses
evaluate by `rfl`. -/
theorem C1_witness : exLang.contains ">=2" "2" = .ok true :=
  C1_amended exLang ">=2" ["1", "2"] [("a", ⟨"a", "1", "existing"⟩)] "a"
    ["2"] ["2"] rfl rfl rfl "2" (by decide)

/-! ### C4 — an uncaught exception escapes the search. -/

/-- C4: the code at `tasks.py:212` filters candidates with
`spec.contains(v, prereleases=True)` and, unlike `pick_min_satisfying`
(lines 138-143), has no `try/except` around it.  `contains` first coerces its
argument with `Version(v)`, so a malformed version string coming from the
metadata port raises `InvalidVersion` straight out of `resolve_plan`: with
registry `exPortC` (package `p` has rows "1.0" and "bad") and the single
target `(p, ">=1")`, the search aborts with an exception instead of a
conflict value. -/
theorem C4_uncaught_exception :
    resolve_plan exLang exPortC 10 [] [("p", ">=1", "target")] =
      some (.error .invalidVersion) := rfl

/-! ### C8 — conflict messages. -/

/-- The five terminal-failure message templates of `dfs`. -/
def ConflictShape (m : String) : Prop :=
  m = msgMaxPackages ∨ m = msgMaxQueue ∨ (∃ n, m = noVersionsMsg n) ∨
    (∃ n s, m = noMatchMsg n s) ∨ (∃ n, m = allFailedMsg n)

/-- Well-shaped `dfs` results: success carries no conflicts, failure carries
exactly one well-shaped message. -/
def GoodRes : DfsRes → Prop
  | (b, _, confs) =>
    (b = true → confs = []) ∧ (b = false → ∃ m, confs = [m] ∧ ConflictShape m)

theorem tryCands_goodRes {Spec : Type} (L : SpecLang Spec) (port : Port)
    (recur : List (Tgt Spec) → Plan → List (String × String) → Option (Except PyExn DfsRes))
    (hrec : ∀ q p v r, recur q p v = some (.ok r) → GoodRes r)
    (name : String) (rest : List (Tgt Spec)) (plan : Plan)
    (visited : List (String × String)) :
    ∀ (cands : List String) (r : DfsRes),
      tryCands L port recur name rest plan visited cands = some (.ok r) → GoodRes r := by
  intro cands
  induction cands with
  | nil =>
    intro r h
    rw [tryCands] at h
    cases h
    refine ⟨(by intro h2; cases h2), fun _ => ?_⟩
    exact ⟨allFailedMsg name, rfl, Or.inr (Or.inr (Or.inr (Or.inr ⟨name, rfl⟩)))⟩
  | cons cand cs ih =>
    intro r h
    rw [tryCands] at h
    cases hdep : depsToTargets L name (port.getRequires name cand) with
    | error e => simp [hdep] at h
    | ok extra =>
      simp only [hdep] at h
      cases hrc : recur (rest ++ extra)
          (dictInsert plan name ⟨name, cand, sourceFor plan name cand⟩) visited with
      | none => simp [hrc] at h
      | some res =>
        simp only [hrc] at h
        cases res with
        | error e => simp at h
        | ok trip =>
          obtain ⟨b, p2, conf⟩ := trip
          cases b with
          | true =>
            simp only [] at h
            cases h
            exact hrec _ _ _ _ hrc
          | false => exact ih r h

theorem dfs_goodRes {Spec : Type} (L : SpecLang Spec) (port : Port) :
    ∀ (fuel : Nat) (queue : List (Tgt Spec)) (plan : Plan)
      (visited : List (String × String)) (r : DfsRes),
      dfs L port fuel queue plan visited = some (.ok r) → GoodRes r := by
  intro fuel
  induction fuel with
  | zero => intro queue plan visited r h; cases h
  | succ fuel ih =>
    intro queue plan visited r h
    rcases queue with _ | ⟨⟨name, spec, tag⟩, rest⟩
    · simp only [dfs] at h
      by_cases hsz : plan.length > MAX_PACKAGES
      · rw [if_pos hsz] at h
        cases h
        refine ⟨(by intro h2; cases h2), fun _ => ?_⟩
        exact ⟨msgMaxPackages, rfl, Or.inl rfl⟩
      · rw [if_neg hsz] at h
        cases h
        exact ⟨fun _ => rfl, (by intro h2; cases h2)⟩
    · simp only [dfs] at h
      by_cases hsz : plan.length > MAX_PACKAGES
      · rw [if_pos hsz] at h
        cases h
        refine ⟨(by intro h2; cases h2), fun _ => ?_⟩
        exact ⟨msgMaxPackages, rfl, Or.inl rfl⟩
      · rw [if_neg hsz] at h
        by_cases hq : rest.length + 1 > MAX_QUEUE
        · rw [if_pos hq] at h
          cases h
          refine ⟨(by intro h2; cases h2), fun _ => ?_⟩
          exact ⟨msgMaxQueue, rfl, Or.inr (Or.inl rfl)⟩
        · rw [if_neg hq] at h
          by_cases hvis : (name, L.specStr spec) ∈ visited
          · rw [if_pos hvis] at h
            exact ih rest plan visited r h
          · rw [if_neg hvis] at h
            by_cases hver : kgGetVersions port name = []
            · rw [if_pos hver] at h
              cases h
              refine ⟨(by intro h2; cases h2), fun _ => ?_⟩
              exact ⟨noVersionsMsg name, rfl, Or.inr (Or.inr (Or.inl ⟨name, rfl⟩))⟩
            · rw [if_neg hver] at h
              cases hb : buildBaseCands L spec (kgGetVersions port name) with
              | error e => simp [hb] at h
              | ok cands0 =>
                simp only [hb] at h
                by_cases hc0 : cands0 = []
                · rw [if_pos hc0] at h
                  cases h
                  refine ⟨(by intro h2; cases h2), fun _ => ?_⟩
                  exact ⟨noMatchMsg name (L.specStr spec), rfl,
                    Or.inr (Or.inr (Or.inr (Or.inl ⟨name, L.specStr spec, rfl⟩)))⟩
                · rw [if_neg hc0] at h
                  cases hfm : frontMove L spec plan name cands0 with
                  | error e => simp [hfm] at h
                  | ok cands =>
                    simp only [hfm] at h
                    exact tryCands_goodRes L port (dfs L port fuel)
                      (fun q p v r2 h2 => ih q p v r2 h2) name rest plan
                      ((name, L.specStr spec) :: visited) cands r h

/-- C8, confirmed.  When `resolve_plan` returns a `ResolutionResult` (no
exception escaped and the modelled recursion completed), `conflicts` is empty
exactly when `ok` is true, and on failure `conflicts` is a single message of
one of the five terminal-failure templates (package cap, queue cap, unknown
package, no matching version, all candidates failed). -/
theorem C8_conflicts_iff_failure {Spec : Type} (L : SpecLang Spec) (port : Port)
    (fuel : Nat) (current : List (String × String))
    (targets : List (String × String × String)) (r : ResolutionResult)
    (h : resolve_plan L port fuel current targets = some (.ok r)) :
    (r.ok = true ↔ r.conflicts = []) ∧
      (r.ok = false → ∃ m, r.conflicts = [m] ∧ ConflictShape m) := by
  rw [resolve_plan] at h
  cases hbq : buildQueue L targets with
  | error e => simp [hbq] at h
  | ok queue =>
    simp only [hbq] at h
    cases hdfs : dfs L port fuel queue (initPlan current) [] with
    | none => simp [hdfs] at h
    | some res =>
      simp only [hdfs] at h
      cases res with
      | error e => simp at h
      | ok trip =>
        obtain ⟨ok, p, confs⟩ := trip
        simp only [] at h
        cases h
        have hg := dfs_goodRes L port fuel queue (initPlan current) [] (ok, p, confs) hdfs
        refine ⟨⟨hg.1, ?_⟩, hg.2⟩
        intro hnil
        cases ok with
        | true => rfl
        | false =>
          obtain ⟨m, hm, _⟩ := hg.2 rfl
          rw [hm] at hnil
          cases hnil

/-- C8, witness: the theorem applied to the concrete failing run in which the
target package `q` is unknown to the registry. -/
theorem C8_witness : ∃ m, [noVersionsMsg "q"] = [m] ∧ ConflictShape m := by
  have h := C8_conflicts_iff_failure exLang exPortA 10 []
    [("q", "", "t")] ⟨false, [], [noVersionsMsg "q"]⟩ rfl
  exact h.2 rfl

/-! ### Dictionary lemmas and the provenance invariant (C2, C3). -/

theorem dictGet_insert_self {α : Type} (d : List (String × α)) (k : String) (v : α) :
    dictGet (dictInsert d k v) k = some v := by
  induction d with
  | nil => simp [dictInsert, dictGet]
  | cons kv rest ih =>
    obtain ⟨k0, v0⟩ := kv
    by_cases h : k0 = k
    · simp [dictInsert, h, dictGet]
    · simp [dictInsert, h, dictGet, ih]

theorem dictGet_insert_ne {α : Type} (d : List (String × α)) (k k2 : String) (v : α)
    (h : k2 ≠ k) : dictGet (dictInsert d k v) k2 = dictGet d k2 := by
  have hk : ¬k = k2 := fun hh => h (Eq.symm hh)
  induction d with
  | nil => simp [dictInsert, dictGet, hk]
  | cons kv rest ih =>
    obtain ⟨k0, v0⟩ := kv
    by_cases h0 : k0 = k
    · subst h0
      simp [dictInsert, dictGet, hk]
    · by_cases h2 : k0 = k2
      · subst h2
        rw [dictInsert, if_neg h0]
        simp [dictGet]
      · simp [dictInsert, h0, dictGet, h2, ih]

/-- The three outcomes of the provenance computation of lines 223-228. -/
theorem sourceFor_cases (plan : Plan) (name cand : String) :
    (dictGet plan name = none ∧ sourceFor plan name cand = "new") ∨
      (∃ sel, dictGet plan name = some sel ∧ sel.source = "existing" ∧
        sel.version = cand ∧ sourceFor plan name cand = "existing") ∨
      (∃ sel, dictGet plan name = some sel ∧
        ¬(sel.source = "existing" ∧ sel.version = cand) ∧
        sourceFor plan name cand = "upgrade") := by
  cases hget : dictGet plan name with
  | none => exact Or.inl ⟨rfl, by rw [sourceFor, hget]⟩
  | some sel =>
    by_cases hx : sel.source = "existing" ∧ sel.version = cand
    · refine Or.inr (Or.inl ⟨sel, rfl, hx.1, hx.2, ?_⟩)
      simp only [sourceFor, hget]
      rw [if_pos hx]
    · refine Or.inr (Or.inr ⟨sel, rfl, hx, ?_⟩)
      simp only [sourceFor, hget]
      rw [if_neg hx]

/-- The provenance invariant that the search preserves, relative to the
initial plan `plan0`: every entry is keyed by its own name, carries one of
the three provenance tags, an `"existing"` entry is exactly the initial
entry for its name, a `"new"` entry names a package absent from the initial
plan, and the domain only grows. -/
def PlanInv (plan0 plan : Plan) : Prop :=
  (∀ name sel, dictGet plan name = some sel →
      sel.name = name ∧
      (sel.source = "existing" →
          dictGet plan0 name = some ⟨name, sel.version, "existing"⟩) ∧
      (sel.source = "new" → dictGet plan0 name = none) ∧
      (sel.source = "existing" ∨ sel.source = "new" ∨ sel.source = "upgrade")) ∧
  (∀ name, dictGet plan0 name = none ∨ (dictGet plan name).isSome)

/-- One assignment step of the candidate loop preserves the invariant. -/
theorem planInv_step (plan0 plan : Plan) (name cand : String)
    (hP : PlanInv plan0 plan) :
    PlanInv plan0 (dictInsert plan name ⟨name, cand, sourceFor plan name cand⟩) := by
  obtain ⟨h1, h2⟩ := hP
  constructor
  · intro n sel hget
    by_cases hn : n = name
    · subst hn
      rw [dictGet_insert_self] at hget
      cases hget
      refine ⟨rfl, ?_, ?_, ?_⟩
      · intro hsrc
        have hsrc2 : sourceFor plan n cand = "existing" := hsrc
        rcases sourceFor_cases plan n cand with ⟨_, hs⟩ | ⟨sel0, hg0, he0, hv0, hs⟩ |
            ⟨sel0, hg0, _, hs⟩
        · rw [hs] at hsrc2
          exact absurd hsrc2 (by decide)
        · have h3 := (h1 n sel0 hg0).2.1 he0
          rw [hv0] at h3
          exact h3
        · rw [hs] at hsrc2
          exact absurd hsrc2 (by decide)
      · intro hsrc
        have hsrc2 : sourceFor plan n cand = "new" := hsrc
        rcases sourceFor_cases plan n cand with ⟨hg0, hs⟩ | ⟨sel0, hg0, he0, hv0, hs⟩ |
            ⟨sel0, hg0, _, hs⟩
        · rcases h2 n with h0 | h0
          · exact h0
          · rw [hg0] at h0
            simp at h0
        · rw [hs] at hsrc2
          exact absurd hsrc2 (by decide)
        · rw [hs] at hsrc2
          exact absurd hsrc2 (by decide)
      · rcases sourceFor_cases plan n cand with ⟨_, hs⟩ | ⟨_, _, _, _, hs⟩ | ⟨_, _, _, hs⟩
        · exact Or.inr (Or.inl hs)
        · exact Or.inl hs
        · exact Or.inr (Or.inr hs)
    · rw [dictGet_insert_ne plan name n _ hn] at hget
      exact h1 n sel hget
  · intro n
    by_cases hn : n = name
    · subst hn
      rw [dictGet_insert_self]
      exact Or.inr rfl
    · rw [dictGet_insert_ne plan name n _ hn]
      exact h2 n

theorem tryCands_planInv {Spec : Type} (L : SpecLang Spec) (port : Port) (plan0 : Plan)
    (recur : List (Tgt Spec) → Plan → List (String × String) → Option (Except PyExn DfsRes))
    (hrec : ∀ q p v r, recur q p v = some (.ok r) → PlanInv plan0 p → PlanInv plan0 r.2.1)
    (name : String) (rest : List (Tgt Spec)) (plan : Plan)
    (visited : List (String × String)) :
    ∀ (cands : List String) (r : DfsRes),
      tryCands L port recur name rest plan visited cands = some (.ok r) →
        PlanInv plan0 plan → PlanInv plan0 r.2.1 := by
  intro cands
  induction cands with
  | nil =>
    intro r h hP
    rw [tryCands] at h
    cases h
    exact hP
  | cons cand cs ih =>
    intro r h hP
    rw [tryCands] at h
    cases hdep : depsToTargets L name (port.getRequires name cand) with
    | error e => simp [hdep] at h
    | ok extra =>
      simp only [hdep] at h
      cases hrc : recur (rest ++ extra)
          (dictInsert plan name ⟨name, cand, sourceFor plan name cand⟩) visited with
      | none => simp [hrc] at h
      | some res =>
        simp only [hrc] at h
        cases res with
        | error e => simp at h
        | ok trip =>
          obtain ⟨b, p2, conf⟩ := trip
          cases b with
          | true =>
            simp only [] at h
            cases h
            exact hrec _ _ _ _ hrc (planInv_step plan0 plan name cand hP)
          | false => exact ih r h hP

theorem dfs_planInv {Spec : Type} (L : SpecLang Spec) (port : Port) (plan0 : Plan) :
    ∀ (fuel : Nat) (queue : List (Tgt Spec)) (plan : Plan)
      (visited : List (String × String)) (r : DfsRes),
      dfs L port fuel queue plan visited = some (.ok r) →
        PlanInv plan0 plan → PlanInv plan0 r.2.1 := by
  intro fuel
  induction fuel with
  | zero => intro queue plan visited r h; cases h
  | succ fuel ih =>
    intro queue plan visited r h hP
    rcases queue with _ | ⟨⟨name, spec, tag⟩, rest⟩
    · simp only [dfs] at h
      by_cases hsz : plan.length > MAX_PACKAGES
      · rw [if_pos hsz] at h
        cases h
        exact hP
      · rw [if_neg hsz] at h
        cases h
        exact hP
    · simp only [dfs] at h
      by_cases hsz : plan.length > MAX_PACKAGES
      · rw [if_pos hsz] at h
        cases h
        exact hP
      · rw [if_neg hsz] at h
        by_cases hq : rest.length + 1 > MAX_QUEUE
        · rw [if_pos hq] at h
          cases h
          exact hP
        · rw [if_neg hq] at h
          by_cases hvis : (name, L.specStr spec) ∈ visited
          · rw [if_pos hvis] at h
            exact ih rest plan visited r h hP
          · rw [if_neg hvis] at h
            by_cases hver : kgGetVersions port name = []
            · rw [if_pos hver] at h
              cases h
              exact hP
            · rw [if_neg hver] at h
              cases hb : buildBaseCands L spec (kgGetVersions port name) with
              | error e => simp [hb] at h
              | ok cands0 =>
                simp only [hb] at h
                by_cases hc0 : cands0 = []
                · rw [if_pos hc0] at h
                  cases h
                  exact hP
                · rw [if_neg hc0] at h
                  cases hfm : frontMove L spec plan name cands0 with
                  | error e => simp [hfm] at h
                  | ok cands =>
                    simp only [hfm] at h
                    exact tryCands_planInv L port plan0 (dfs L port fuel)
                      (fun q p v r2 h2 hP2 => ih q p v r2 h2 hP2) name rest plan
                      ((name, L.specStr spec) :: visited) cands r h hP

/-- Entries of the initial plan are keyed by their own name and tagged
`"existing"`. -/
theorem initPlan_entries (current : List (String × String)) :
    ∀ name sel, dictGet (initPlan current) name = some sel →
      sel.name = name ∧ sel.source = "existing" := by
  have general : ∀ (l : List (String × String)) (acc : Plan),
      (∀ n s, dictGet acc n = some s → s.name = n ∧ s.source = "existing") →
      ∀ n s,
        dictGet (l.foldl (fun acc kv =>
          dictInsert acc (normalize_name kv.1)
            ⟨normalize_name kv.1, kv.2, "existing"⟩) acc) n = some s →
        s.name = n ∧ s.source = "existing" := by
    intro l
    induction l with
    | nil => intro acc hacc n s h; exact hacc n s h
    | cons kv rest ih =>
      intro acc hacc n s h
      refine ih _ ?_ n s h
      intro n2 s2 h2
      by_cases hn : n2 = normalize_name kv.1
      · subst hn
        rw [dictGet_insert_self] at h2
        cases h2
        exact ⟨rfl, rfl⟩
      · rw [dictGet_insert_ne _ _ _ _ hn] at h2
        exact hacc n2 s2 h2
  intro name sel h
  exact general current [] (by intro n s hh; cases hh) name sel h

/-- The invariant holds of the initial plan itself. -/
theorem planInv_init (current : List (String × String)) :
    PlanInv (initPlan current) (initPlan current) := by
  constructor
  · intro name sel hget
    obtain ⟨hname, hsrc⟩ := initPlan_entries current name sel hget
    refine ⟨hname, ?_, ?_, Or.inl hsrc⟩
    · intro _
      rw [hget]
      have : sel = ⟨name, sel.version, "existing"⟩ := by
        cases sel
        simp only at hname hsrc
        rw [hname, hsrc]
      rw [← this]
    · intro hnew
      rw [hsrc] at hnew
      exact absurd hnew (by decide)
  · intro name
    cases h : dictGet (initPlan current) name with
    | none => exact Or.inl rfl
    | some sel => exact Or.inr rfl

/-- Shared helper: every plan a completed `resolve_plan` hands back satisfies
the provenance invariant relative to the initial plan. -/
theorem resolve_plan_sources {Spec : Type} (L : SpecLang Spec) (port : Port)
    (fuel : Nat) (current : List (String × String))
    (targets : List (String × String × String)) (r : ResolutionResult)
    (h : resolve_plan L port fuel current targets = some (.ok r)) :
    PlanInv (initPlan current) r.plan := by
  rw [resolve_plan] at h
  cases hbq : buildQueue L targets with
  | error e => simp [hbq] at h
  | ok queue =>
    simp only [hbq] at h
    cases hdfs : dfs L port fuel queue (initPlan current) [] with
    | none => simp [hdfs] at h
    | some res =>
      simp only [hdfs] at h
      cases res with
      | error e => simp at h
      | ok trip =>
        obtain ⟨ok, p, confs⟩ := trip
        simp only [] at h
        cases h
        exact dfs_planInv L port (initPlan current) fuel queue (initPlan current) []
          (ok, p, confs) hdfs (planInv_init current)

/-! ### C3 — provenance classification. -/

/-- C3, counterexample.  Targets `(a, "==1")` then `(a, ">=1")` against
`exPortA`: the second expansion reassigns `a` to the very version "1" the
incoming plan already holds, yet the recorded provenance is "upgrade", not
"existing", because the incoming entry's provenance was "new" (lines 225-228
also require the previous provenance to be "existing"). -/
theorem C3_counterexample :
    resolve_plan exLang exPortA 10 [] [("a", "==1", "t1"), ("a", ">=1", "t2")] =
      some (.ok ⟨true, [("a", ⟨"a", "1", "upgrade"⟩)], []⟩) ∧
    ("upgrade" : String) ≠ "existing" := ⟨rfl, by decide⟩

/-- C3, amended.  Provenance is computed from the incoming plan as:
"existing" only when the incoming entry has provenance "existing" *and*
exactly this version; "new" when the name is absent; "upgrade" otherwise —
including a reassignment to the same version whose prior provenance was
"new" or "upgrade".  Consequently, in any completed `resolve_plan` (whose
initial plan marks every environment entry "existing"), an entry tagged
"existing" is exactly the initial entry for its name, an entry tagged "new"
names a package absent from the initial plan, and every tag is one of the
three. -/
theorem C3_amended {Spec : Type} (L : SpecLang Spec) (port : Port)
    (fuel : Nat) (current : List (String × String))
    (targets : List (String × String × String)) (r : ResolutionResult)
    (h : resolve_plan L port fuel current targets = some (.ok r)) :
    (∀ plan name cand,
        (dictGet plan name = none → sourceFor plan name cand = "new") ∧
        (∀ sel, dictGet plan name = some sel →
          sourceFor plan name cand =
            if sel.source = "existing" ∧ sel.version = cand then "existing"
            else "upgrade")) ∧
    ∀ name sel, dictGet r.plan name = some sel →
      sel.name = name ∧
      (sel.source = "existing" →
          dictGet (initPlan current) name = some ⟨name, sel.version, "existing"⟩) ∧
      (sel.source = "new" → dictGet (initPlan current) name = none) ∧
      (sel.source = "existing" ∨ sel.source = "new" ∨ sel.source = "upgrade") := by
  refine ⟨?_, (resolve_plan_sources L port fuel current targets r h).1⟩
  intro plan name cand
  constructor
  · intro hnone
    rw [sourceFor, hnone]
  · intro sel hsel
    simp only [sourceFor, hsel]

/-- C3, witness: the amended theorem applied to the completed run
`resolve_plan exLang exPortA 10 [("b", "1")] [("a", "==1", "t")]`, whose plan
is `b@1` ("existing") and `a@1` ("new"): the "new" entry indeed names a
package absent from the initial plan. -/
theorem C3_witness : dictGet (initPlan [("b", "1")]) "a" = none := by
  have h := C3_amended exLang exPortA 10 [("b", "1")] [("a", "==1", "t")]
    ⟨true, [("b", ⟨"b", "1", "existing"⟩), ("a", ⟨"a", "1", "new"⟩)], []⟩ rfl
  exact (h.2 "a" ⟨"a", "1", "new"⟩ rfl).2.2.1 rfl

/-! ### C2 — check-only mode. -/

/-- C2, counterexample.  Check-only mode upgrades a dependency: environment
`numpy@1.0`, no requirement lines, candidate `a ==1` where `a@1` requires
`numpy>=2` (registry `exPortB`).  `task1_check_single` returns `ok = true`
with `numpy` moved to 2.0 ("upgrade"), different from the environment's own
entry for a package other than the explicit target. -/
theorem C2_counterexample :
    task1_check_single exLang exPortB 10 [("numpy", "1.0")] [] "a" "==1" =
      some (.ok ⟨true,
        [("numpy", ⟨"numpy", "2.0", "upgrade"⟩), ("a", ⟨"a", "1", "new"⟩)], []⟩) ∧
    ("numpy" : String) ≠ "a" ∧ ("2.0" : String) ≠ "1.0" :=
  ⟨rfl, by decide, by decide⟩

/-- C2, amended.  Check-only mode does not *seed* upgrades: requirement-file
entries stay background facts and only the one candidate becomes a target;
but the search may still reassign other packages through dependency-derived
targets, so when `ok = true` only the entries whose provenance is
"existing" are guaranteed to carry exactly the version the (merged,
filtered) environment had for them — any other entry was reassigned by the
search ("new"/"upgrade"), as in the counterexample. -/
theorem C2_amended {Spec : Type} (L : SpecLang Spec) (port : Port)
    (fuel : Nat) (current : List (String × String)) (reqLines : List String)
    (newPkg spec : String) (reqMap : List (String × String))
    (merged : List (String × Option String)) (r : ResolutionResult)
    (hreq : parse_requirements L reqLines = .ok reqMap)
    (hmerge : task1Merge L (current.map (fun kv => (kv.1, some kv.2))) reqMap =
      .ok (.inr merged))
    (h : task1_check_single L port fuel current reqLines newPkg spec = some (.ok r))
    (_hok : r.ok = true) :
    ∀ name sel, dictGet r.plan name = some sel → sel.source = "existing" →
      dictGet (initPlan (task1Filter merged)) name =
        some ⟨name, sel.version, "existing"⟩ := by
  rw [task1_check_single] at h
  simp only [hreq, hmerge] at h
  intro name sel hget hsrc
  exact ((resolve_plan_sources L port fuel (task1Filter merged)
    [(newPkg, spec, "target")] r h).1 name sel hget).2.1 hsrc

/-- C2, witness: the amended theorem applied to the completed check-only run
with environment `b@1` and candidate `a ==1` (registry `exPortA`), at the
plan entry for `b`, which is tagged "existing". -/
theorem C2_witness :
    dictGet (initPlan (task1Filter [("b", some "1")])) "b" =
      some ⟨"b", "1", "existing"⟩ := by
  have h := C2_amended exLang exPortA 10 [("b", "1")] [] "a" "==1" [] [("b", some "1")]
    ⟨true, [("b", ⟨"b", "1", "existing"⟩), ("a", ⟨"a", "1", "new"⟩)], []⟩
    rfl rfl rfl rfl
  exact h "b" ⟨"b", "1", "existing"⟩ rfl rfl

/-! ### C9 — determinism with respect to the metadata port. -/

theorem tryCands_congr {Spec : Type} (L : SpecLang Spec) (port1 port2 : Port)
    (recur1 recur2 : List (Tgt Spec) → Plan → List (String × String) →
      Option (Except PyExn DfsRes))
    (hrec : ∀ q p v, recur1 q p v = recur2 q p v)
    (hr : ∀ n v, port1.getRequires n v = port2.getRequires n v)
    (name : String) (rest : List (Tgt Spec)) (plan : Plan)
    (visited : List (String × String)) :
    ∀ cands, tryCands L port1 recur1 name rest plan visited cands =
      tryCands L port2 recur2 name rest plan visited cands := by
  intro cands
  induction cands with
  | nil => rfl
  | cons cand cs ih => simp only [tryCands, hr, hrec, ih]

theorem dfs_congr {Spec : Type} (L : SpecLang Spec) (port1 port2 : Port)
    (hv : ∀ n, port1.getVersions n = port2.getVersions n)
    (hr : ∀ n v, port1.getRequires n v = port2.getRequires n v) :
    ∀ (fuel : Nat) (queue : List (Tgt Spec)) (plan : Plan)
      (visited : List (String × String)),
      dfs L port1 fuel queue plan visited = dfs L port2 fuel queue plan visited := by
  have hkv : ∀ n, kgGetVersions port1 n = kgGetVersions port2 n := by
    intro n
    rw [kgGetVersions, kgGetVersions, hv]
  intro fuel
  induction fuel with
  | zero => intro queue plan visited; rfl
  | succ fuel ih =>
    intro queue plan visited
    have htc : ∀ name rest p v cands,
        tryCands L port1 (dfs L port1 fuel) name rest p v cands =
          tryCands L port2 (dfs L port2 fuel) name rest p v cands :=
      fun name rest p v cands =>
        tryCands_congr L port1 port2 _ _ (fun q p2 v2 => ih q p2 v2) hr name rest p v cands
    rcases queue with _ | ⟨⟨name, spec, tag⟩, rest⟩
    · simp only [dfs]
    · simp only [dfs, hkv, ih, htc]

theorem resolve_plan_congr {Spec : Type} (L : SpecLang Spec) (port1 port2 : Port)
    (hv : ∀ n, port1.getVersions n = port2.getVersions n)
    (hr : ∀ n v, port1.getRequires n v = port2.getRequires n v)
    (fuel : Nat) (current : List (String × String))
    (targets : List (String × String × String)) :
    resolve_plan L port1 fuel current targets = resolve_plan L port2 fuel current targets := by
  simp only [resolve_plan, dfs_congr L port1 port2 hv hr]

/-- C9, confirmed.  Each entry point is a pure function of its inputs and of
the metadata port's answers: two runs with identical environment,
requirement lines and targets, against two ports that answer every
`get_versions` and `get_requires` query identically, return identical
results (same `ok`, same plan, same conflicts — or the identical exception
or cutoff). -/
theorem C9_deterministic {Spec : Type} (L : SpecLang Spec) (port1 port2 : Port)
    (hv : ∀ n, port1.getVersions n = port2.getVersions n)
    (hr : ∀ n v, port1.getRequires n v = port2.getRequires n v)
    (fuel : Nat) (current : List (String × String)) (reqLines : List String)
    (newPkg spec minSpec : String) (newPkgs : List (String × String)) :
    task1_check_single L port1 fuel current reqLines newPkg spec =
      task1_check_single L port2 fuel current reqLines newPkg spec ∧
    task2_install_single_with_upgrade L port1 fuel current reqLines newPkg minSpec =
      task2_install_single_with_upgrade L port2 fuel current reqLines newPkg minSpec ∧
    task3_install_multi_with_upgrade L port1 fuel current reqLines newPkgs =
      task3_install_multi_with_upgrade L port2 fuel current reqLines newPkgs := by
  refine ⟨?_, ?_, ?_⟩
  · simp only [task1_check_single, resolve_plan_congr L port1 port2 hv hr]
  · simp only [task2_install_single_with_upgrade, resolve_plan_congr L port1 port2 hv hr]
  · simp only [task3_install_multi_with_upgrade, resolve_plan_congr L port1 port2 hv hr]

/-- A second registry that answers every query like `exPortA` but is built
from a different expression. -/
def exPortA2 : Port where
  getVersions := fun n => (if n = "a" then ["1", "2"] else []) ++ []
  getRequires := fun _ _ => [] ++ []

/-- C9, witness: the theorem applied to `exPortA` and the pointwise-equal
`exPortA2`, with the agreement hypotheses discharged by `simp`. -/
theorem C9_witness :
    task1_check_single exLang exPortA 10 [("b", "1")] [] "a" "==1" =
      task1_check_single exLang exPortA2 10 [("b", "1")] [] "a" "==1" :=
  (C9_deterministic exLang exPortA exPortA2
    (by intro n; simp [exPortA, exPortA2])
    (by intro n v; simp [exPortA, exPortA2])
    10 [("b", "1")] [] "a" "==1" "" []).1

/-! ### C10 — duplicate requirement lines: last occurrence wins. -/

theorem parseRequirementsAux_append {Spec : Type} (L : SpecLang Spec) :
    ∀ (ls : List String) (acc : List (String × String)) (rest : List String),
      parseRequirementsAux L acc (ls ++ rest) =
        match parseRequirementsAux L acc ls with
        | .error e => .error e
        | .ok m => parseRequirementsAux L m rest := by
  intro ls
  induction ls with
  | nil => intro acc rest; rfl
  | cons line ls ih =>
    intro acc rest
    show parseRequirementsAux L acc (line :: (ls ++ rest)) = _
    simp only [parseRequirementsAux]
    by_cases h0 : pyStripStr line = ""
    · simp only [if_pos h0]
      exact ih _ _
    · simp only [if_neg h0]
      by_cases h1 : (pyStripStr line).data.head? = some '#'
      · simp only [if_pos h1]
        exact ih _ _
      · simp only [if_neg h1]
        cases L.parseReq (pyStripStr line) with
        | error e => rfl
        | ok nameSpec =>
          obtain ⟨name0, spec0⟩ := nameSpec
          exact ih _ _

/-- C10, confirmed.  (i) When a later non-comment requirement line parses to
a name that normalizes to one already bound, `parse_requirements` rebinds
that name to the later line's specifier (`result[name] = spec`, last
occurrence wins), so the final map holds exactly the later specifier.
(ii) The three entry points read the requirement lines only through
`parse_requirements`, so two line lists with the same parse result — in
particular, with and without the shadowed earlier line's constraint — give
identical results: the dropped specifier is never enforced. -/
theorem C10_last_wins {Spec : Type} (L : SpecLang Spec) (port : Port) :
    (∀ (ls : List String) (line : String) (m : List (String × String))
        (name0 spec0 : String),
        parse_requirements L ls = .ok m →
        pyStripStr line ≠ "" →
        (pyStripStr line).data.head? ≠ some '#' →
        L.parseReq (pyStripStr line) = .ok (name0, spec0) →
        parse_requirements L (ls ++ [line]) =
          .ok (dictInsert m (normalize_name name0) spec0) ∧
        dictGet (dictInsert m (normalize_name name0) spec0) (normalize_name name0) =
          some spec0) ∧
    (∀ (l1 l2 : List String), parse_requirements L l1 = parse_requirements L l2 →
        ∀ (fuel : Nat) (current : List (String × String))
          (newPkg spec minSpec : String) (newPkgs : List (String × String)),
          task1_check_single L port fuel current l1 newPkg spec =
            task1_check_single L port fuel current l2 newPkg spec ∧
          task2_install_single_with_upgrade L port fuel current l1 newPkg minSpec =
            task2_install_single_with_upgrade L port fuel current l2 newPkg minSpec ∧
          task3_install_multi_with_upgrade L port fuel current l1 newPkgs =
            task3_install_multi_with_upgrade L port fuel current l2 newPkgs) := by
  constructor
  · intro ls line m name0 spec0 hls hne hhash hreq
    constructor
    · rw [parse_requirements] at hls ⊢
      rw [parseRequirementsAux_append, hls]
      simp only [parseRequirementsAux, if_neg hne, if_neg hhash, hreq]
    · exact dictGet_insert_self m (normalize_name name0) spec0
  · intro l1 l2 h fuel current newPkg spec minSpec newPkgs
    refine ⟨?_, ?_, ?_⟩
    · simp only [task1_check_single, h]
    · simp only [task2_install_single_with_upgrade, h]
    · simp only [task3_install_multi_with_upgrade, h]

/-- C10, witness: appending `"a==2"` after lines `["b==9", "a==1"]` rebinds
`a` to "==2" (the earlier "==1" is gone from the map), and a line list with
the shadowed `"a==1"` present behaves in `task1_check_single` exactly like
one with it replaced by a comment. -/
theorem C10_witness :
    parse_requirements exLang (["b==9", "a==1"] ++ ["a==2"]) =
      .ok (dictInsert [("b", "==9"), ("a", "==1")] "a" "==2") ∧
    dictGet (dictInsert [("b", "==9"), ("a", "==1")] "a" "==2") "a" = some "==2" ∧
    task1_check_single exLang exPortA 10 [] ["a==1", "a==2"] "a" "==2" =
      task1_check_single exLang exPortA 10 [] ["# note", "a==2"] "a" "==2" := by
  have h1 := (C10_last_wins exLang exPortA).1 ["b==9", "a==1"] "a==2"
    [("b", "==9"), ("a", "==1")] "a" "==2" rfl (by decide) (by decide) rfl
  have h2 := ((C10_last_wins exLang exPortA).2 ["a==1", "a==2"] ["# note", "a==2"]
    rfl 10 [] "a" "==2" "" []).1
  exact ⟨h1.1, h1.2, h2⟩
